import Mathlib

/-!
Verification of the ralphorio multiplayer room server and client replication
pipeline: a shallow embedding, in Lean 4, of the room actor's tick loop and
command handling (`worker/src/index.ts`), the protocol codec
(`worker/src/framework/protocol.ts`), the projectile / build / movement
feature modules (`worker/src/features/*.ts`), and the client-side
`ReplicationPipeline` (`src/game/netcode/replication.ts`).

JavaScript numbers that the code treats as exact (millisecond timestamps,
sequence numbers, snapshot coordinates) are modelled as `ℚ` or `ℕ`; the one
place where the code computes an irrational quantity (`Math.hypot` in the
projectile speed cap) is modelled over `ℝ`.
-/

namespace Ralphorio

/-! ## Tick loop (`RoomDurableObject.startTickLoop`, worker/src/index.ts)

Constants from the source: `SIM_RATE_HZ = 60`, so
`SIM_DT_MS = Math.round(1000 / 60) = 17`; `MAX_CATCHUP_STEPS = 8`; the
per-wake elapsed-time clamp is `Math.min(elapsed, 250)`. All quantities are
integer milliseconds (differences of `Date.now()` values), so the
accumulator is a `ℕ`.
-/

/-- `SIM_DT_MS = Math.round(1000 / SIM_RATE_HZ)` with `SIM_RATE_HZ = 60`. -/
def simDtMs : Nat := 17

/-- `MAX_CATCHUP_STEPS` from the source. -/
def maxCatchupSteps : Nat := 8

/-- The clamp bound `250` in `this.accumulatorMs += Math.min(elapsed, 250)`. -/
def elapsedClampMs : Nat := 250

/-- The `while (this.accumulatorMs >= SIM_DT_MS && simulatedSteps < MAX_CATCHUP_STEPS)`
loop, with the remaining step budget as fuel. Returns (steps run, accumulator left). -/
def catchupLoop : Nat → Nat → Nat × Nat
  | 0, acc => (0, acc)
  | budget + 1, acc =>
    if simDtMs ≤ acc then
      let r := catchupLoop budget (acc - simDtMs)
      (r.1 + 1, r.2)
    else
      (0, acc)

/-- Result of one wake of the tick-loop interval callback. -/
structure TickWake where
  steps : Nat
  accMs : Nat
  deriving Repr, DecidableEq

/-- One wake of the `setInterval` callback in `startTickLoop` (the non-idle
path): clamp the elapsed wall time, add it to the accumulator, run up to
`maxCatchupSteps` simulation steps, and discard the remainder if the step
budget was exhausted with a full step still pending. -/
def tickWake (accMs elapsed : Nat) : TickWake :=
  let acc1 := accMs + min elapsed elapsedClampMs
  let r := catchupLoop maxCatchupSteps acc1
  let accFinal := if r.1 = maxCatchupSteps ∧ simDtMs ≤ r.2 then 0 else r.2
  { steps := r.1, accMs := accFinal }

theorem catchupLoop_eq (budget acc : Nat) :
    catchupLoop budget acc =
      (min (acc / simDtMs) budget, acc - simDtMs * min (acc / simDtMs) budget) := by
  induction budget generalizing acc with
  | zero => simp [catchupLoop]
  | succ n ih =>
    by_cases h : simDtMs ≤ acc
    · have hd : acc / simDtMs = (acc - simDtMs) / simDtMs + 1 :=
        Nat.div_eq_sub_div (by norm_num [simDtMs]) h
      simp only [catchupLoop, if_pos h, ih]
      rw [hd, Nat.succ_min_succ]
      rw [Prod.mk.injEq]
      refine ⟨rfl, ?_⟩
      simp only [simDtMs] at h ⊢
      omega
    · have hz : acc / simDtMs = 0 := Nat.div_eq_of_lt (Nat.lt_of_not_le h)
      simp [catchupLoop, if_neg h, hz]

/-- C2: in one wake of the tick loop, the elapsed wall time is clamped to at
most 250 ms before being added to the accumulator; the number of simulation
steps executed equals `min (floor (accumulator / stepDuration)) 8` for the
post-addition accumulator; and if exactly 8 steps ran while the accumulator
still holds at least one full step, the accumulator is reset to zero. -/
theorem C2_tick_wake_step_budget (accMs elapsed : Nat) :
    (tickWake accMs elapsed).steps =
      min ((accMs + min elapsed elapsedClampMs) / simDtMs) maxCatchupSteps
    ∧ ((tickWake accMs elapsed).steps = maxCatchupSteps ∧
        simDtMs ≤ (accMs + min elapsed elapsedClampMs) - simDtMs * maxCatchupSteps →
        (tickWake accMs elapsed).accMs = 0) := by
  constructor
  · simp [tickWake, catchupLoop_eq]
  · intro h
    obtain ⟨h8, hrem⟩ := h
    simp only [tickWake, catchupLoop_eq] at h8 ⊢
    simp [h8, hrem]

/-- Witness for C2 at a concrete input: a 300 ms accumulator plus a 300 ms
stall (clamped to 250 ms) yields 550 ms accumulated, which runs exactly the
8-step budget and then discards the 414 ms remainder. -/
theorem C2_tick_wake_step_budget_witness :
    (tickWake 300 300).steps = 8 ∧ (tickWake 300 300).accMs = 0 := by
  have h := C2_tick_wake_step_budget 300 300
  exact ⟨h.1.trans (by decide), h.2 ⟨h.1.trans (by decide), by decide⟩⟩

/-! ## Room lifecycle (`startTickLoop` / `stopTickLoopIfIdle` / `handleDisconnect`)

The lifecycle-relevant state of a `RoomDurableObject`: the number of live
sessions in `this.sessions`, whether `this.tickTimer` is set, the
accumulator and the tick counter. Connects (`fetch`), disconnects
(`webSocketClose` / `webSocketError` via `handleDisconnect`) and timer wakes
are the events; the durable object is single-threaded, so an execution is a
sequence of these events.
-/

/-- Lifecycle-relevant state of the room actor. -/
structure RoomLoopState where
  nSessions : Nat
  timerOn : Bool
  accMs : Nat
  tick : Nat
  deriving Repr, DecidableEq

/-- A freshly created room with no sessions: `this.tickTimer = null`. -/
def idleRoom : RoomLoopState :=
  { nSessions := 0, timerOn := false, accMs := 0, tick := 0 }

/-- `startTickLoop`: early-return when the timer is already set or there are
no sessions; otherwise reset the anchor and accumulator and set the timer. -/
def startTickLoop (s : RoomLoopState) : RoomLoopState :=
  if s.timerOn ∨ s.nSessions = 0 then s
  else { s with timerOn := true, accMs := 0 }

/-- `stopTickLoopIfIdle`: early-return while sessions remain; otherwise clear
the timer. -/
def stopTickLoopIfIdle (s : RoomLoopState) : RoomLoopState :=
  if 0 < s.nSessions then s
  else { s with timerOn := false }

/-- Externally triggered room events: an accepted websocket connection, a
socket close/error, and a timer wake with some elapsed wall time. -/
inductive RoomEvent where
  | connect
  | disconnect
  | wake (elapsed : Nat)

/-- One event step of the room actor, also reporting how many simulation
steps ran during the event. `connect` follows `fetch` (register the session,
then `startTickLoop`); `disconnect` follows `handleDisconnect` (ignore
unknown sockets, else drop the session and `stopTickLoopIfIdle`); `wake`
follows the `setInterval` callback (which can only fire while the timer is
set): with zero sessions it calls `stopTickLoopIfIdle` and returns without
simulating, otherwise it runs the accumulator loop of `tickWake`. -/
def roomStepRun : RoomLoopState → RoomEvent → RoomLoopState × Nat
  | s, .connect => (startTickLoop { s with nSessions := s.nSessions + 1 }, 0)
  | s, .disconnect =>
    if s.nSessions = 0 then (s, 0)
    else (stopTickLoopIfIdle { s with nSessions := s.nSessions - 1 }, 0)
  | s, .wake elapsed =>
    if s.timerOn = false then (s, 0)
    else if s.nSessions = 0 then (stopTickLoopIfIdle s, 0)
    else
      let w := tickWake s.accMs elapsed
      ({ s with accMs := w.accMs, tick := s.tick + w.steps }, w.steps)

/-- One event step of the room actor (state part). -/
def roomStep (s : RoomLoopState) (e : RoomEvent) : RoomLoopState :=
  (roomStepRun s e).1

/-- The room actor state after a sequence of events starting from the idle
room. -/
def runRoom (evs : List RoomEvent) : RoomLoopState :=
  evs.foldl roomStep idleRoom

theorem roomStep_timer_invariant (s : RoomLoopState) (e : RoomEvent)
    (h : s.timerOn = decide (0 < s.nSessions)) :
    (roomStep s e).timerOn = decide (0 < (roomStep s e).nSessions) := by
  obtain ⟨n, t, a, k⟩ := s
  simp only at h
  rw [h]
  cases e with
  | connect =>
    cases n <;> simp [roomStep, roomStepRun, startTickLoop]
  | disconnect =>
    match n with
    | 0 => simp [roomStep, roomStepRun]
    | 1 => simp [roomStep, roomStepRun, stopTickLoopIfIdle]
    | m + 2 => simp [roomStep, roomStepRun, stopTickLoopIfIdle]
  | wake elapsed =>
    cases n <;> simp [roomStep, roomStepRun, stopTickLoopIfIdle]

theorem runRoom_timer_invariant (evs : List RoomEvent) :
    (runRoom evs).timerOn = decide (0 < (runRoom evs).nSessions) := by
  suffices hgen : ∀ s, s.timerOn = decide (0 < s.nSessions) →
      (evs.foldl roomStep s).timerOn = decide (0 < (evs.foldl roomStep s).nSessions) by
    exact hgen idleRoom (by decide)
  induction evs with
  | nil => intro s h; exact h
  | cons e rest ih =>
    intro s h
    exact ih (roomStep s e) (roomStep_timer_invariant s e h)

/-- C8: in every room-actor state reachable from the idle room the tick
timer is running exactly when at least one session is live; a wake that
finds zero sessions runs no simulation step and leaves the tick counter
unchanged; a connection arriving at a zero-session room starts the tick
loop; and a disconnect stops the tick loop exactly when it removes the last
session. -/
theorem C8_tick_loop_lifecycle :
    (∀ evs : List RoomEvent,
      (runRoom evs).timerOn = true ↔ 0 < (runRoom evs).nSessions)
    ∧ (∀ (s : RoomLoopState) (elapsed : Nat), s.nSessions = 0 →
        (roomStepRun s (.wake elapsed)).2 = 0 ∧
        (roomStep s (.wake elapsed)).tick = s.tick ∧
        (roomStep s (.wake elapsed)).timerOn = false)
    ∧ (∀ s : RoomLoopState, s.nSessions = 0 →
        (roomStep s .connect).timerOn = true)
    ∧ (∀ s : RoomLoopState, s.timerOn = true → 0 < s.nSessions →
        ((roomStep s .disconnect).timerOn = false ↔ s.nSessions = 1)) := by
  refine ⟨?_, ?_, ?_, ?_⟩
  · intro evs
    rw [runRoom_timer_invariant evs]
    simp
  · intro s elapsed h0
    obtain ⟨n, t, a, k⟩ := s
    simp only at h0
    subst h0
    cases t <;> simp [roomStep, roomStepRun, stopTickLoopIfIdle]
  · intro s h0
    obtain ⟨n, t, a, k⟩ := s
    simp only at h0
    subst h0
    cases t <;> simp [roomStep, roomStepRun, startTickLoop]
  · intro s ht h0
    obtain ⟨n, t, a, k⟩ := s
    simp only at ht h0
    subst ht
    match n, h0 with
    | 1, _ => simp [roomStep, roomStepRun, stopTickLoopIfIdle]
    | m + 2, _ =>
      simp [roomStep, roomStepRun, stopTickLoopIfIdle]

/-- Witness for C8 at concrete inputs: after connect–connect–disconnect the
timer is still on; a wake at a zero-session idle state runs no step; a
connect into the idle room starts the timer; a disconnect of the only
session stops it. -/
theorem C8_tick_loop_lifecycle_witness :
    (runRoom [.connect, .connect, .disconnect]).timerOn = true
    ∧ (roomStepRun idleRoom (.wake 16)).2 = 0
    ∧ (roomStep idleRoom .connect).timerOn = true
    ∧ (roomStep { nSessions := 1, timerOn := true, accMs := 3, tick := 7 }
        .disconnect).timerOn = false := by
  have h := C8_tick_loop_lifecycle
  refine ⟨?_, ?_, ?_, ?_⟩
  · exact (h.1 [.connect, .connect, .disconnect]).mpr (by decide)
  · exact (h.2.1 idleRoom 16 rfl).1
  · exact h.2.2.1 idleRoom rfl
  · exact (h.2.2.2 { nSessions := 1, timerOn := true, accMs := 3, tick := 7 }
      rfl (by decide)).mpr rfl

/-! ## JSON values and the protocol codec (`worker/src/framework/protocol.ts`)

`parseClientEnvelope(raw)` first runs `JSON.parse(raw)` inside a
`try`/`catch` that returns `null`; the parse result is modelled as
`Option Json` (`none` = the parse threw). JSON numbers are exact decimals
and therefore always finite (JSON has no `Infinity`/`NaN` literals), so the
source's `Number.isFinite(clientTime)` check is always satisfied by a
number-typed field. Non-object JSON values (arrays included, which pass the
source's `isRecord` test but have no `v` property) are rejected the same
way the source rejects them: every field lookup misses, so validation
fails.
-/

/-- Values produced by `JSON.parse`. Objects keep field order; a duplicate
key keeps the last value. -/
inductive Json where
  | null
  | bool (b : Bool)
  | num (q : ℚ)
  | str (s : String)
  | arr (elems : List Json)
  | obj (fields : List (String × Json))

/-- JavaScript property access `record[key]` on an object built from an
ordered field list: the last assignment to a key wins; a missing key gives
`undefined`, modelled as `none`. -/
def jsGet (fields : List (String × Json)) (key : String) : Option Json :=
  fields.foldl (fun acc kv => if kv.1 = key then some kv.2 else acc) none

/-- `PROTOCOL_VERSION = 2`. -/
def protocolVersion : ℚ := 2

/-- The command envelope produced by `parseClientEnvelope`; the `kind` field
is always the literal `"command"` and is left implicit. -/
structure ClientCommandEnvelopeM where
  v : ℚ
  seq : ℚ
  feature : String
  action : String
  clientTime : ℚ
  payload : Option Json

/-- Reads a JavaScript value as a number (`typeof x === 'number'`). -/
def asNum : Option Json → Option ℚ
  | some (.num q) => some q
  | _ => none

/-- Reads a JavaScript value as a string (`typeof x === 'string'`). -/
def asStr : Option Json → Option String
  | some (.str s) => some s
  | _ => none

/-- Reads a JSON value as an object with named fields. -/
def asObj : Json → Option (List (String × Json))
  | .obj fields => some fields
  | _ => none

/-- `parseClientEnvelope` from `worker/src/framework/protocol.ts`: the
source's sequence of typeof checks and early `return null`s, written as an
`Option` chain. `Number.isInteger(seq)` is `seq.den = 1`, `seq < 1` is
`¬ 1 ≤ seq`, and the length bounds on `feature`/`action` are as in the
source. On success it returns the envelope with exactly the validated
fields plus the opaque `payload` property. -/
def parseClientEnvelope (input : Option Json) : Option ClientCommandEnvelopeM :=
  input.bind fun parsed =>
  (asObj parsed).bind fun fields =>
  (asNum (jsGet fields "v")).bind fun v =>
  (asStr (jsGet fields "kind")).bind fun kind =>
  (asNum (jsGet fields "seq")).bind fun seq =>
  (asStr (jsGet fields "feature")).bind fun feature =>
  (asStr (jsGet fields "action")).bind fun action =>
  (asNum (jsGet fields "clientTime")).bind fun clientTime =>
  if v = protocolVersion ∧ kind = "command" ∧ seq.den = 1 ∧ 1 ≤ seq ∧
      1 ≤ feature.length ∧ feature.length ≤ 64 ∧
      1 ≤ action.length ∧ action.length ≤ 64 then
    some { v := v, seq := seq, feature := feature, action := action,
           clientTime := clientTime, payload := jsGet fields "payload" }
  else
    none

theorem asNum_eq_some (o : Option Json) (q : ℚ) :
    asNum o = some q ↔ o = some (.num q) := by
  rcases o with _ | j
  · simp [asNum]
  · cases j <;> simp [asNum]

theorem asStr_eq_some (o : Option Json) (s : String) :
    asStr o = some s ↔ o = some (.str s) := by
  rcases o with _ | j
  · simp [asStr]
  · cases j <;> simp [asStr]

theorem asObj_eq_some (j : Json) (fields : List (String × Json)) :
    asObj j = some fields ↔ j = .obj fields := by
  cases j <;> simp [asObj]

/-- Validity of a command envelope written from the spec's words (spec
section 4.1 and section 6): protocol version equals 2, kind is
`"command"`, `seq` is a positive integer, `feature` and `action` are
strings of 1 to 64 characters, and `clientTime` is a (finite) number. -/
def specCommandValid (fields : List (String × Json)) : Prop :=
  jsGet fields "v" = some (.num 2) ∧
  jsGet fields "kind" = some (.str "command") ∧
  (∃ q : ℚ, jsGet fields "seq" = some (.num q) ∧ q.den = 1 ∧ 1 ≤ q) ∧
  (∃ f : String, jsGet fields "feature" = some (.str f) ∧
    1 ≤ f.length ∧ f.length ≤ 64) ∧
  (∃ a : String, jsGet fields "action" = some (.str a) ∧
    1 ≤ a.length ∧ a.length ≤ 64) ∧
  (∃ t : ℚ, jsGet fields "clientTime" = some (.num t))

theorem parseClientEnvelope_some_spec (fields : List (String × Json))
    (e : ClientCommandEnvelopeM)
    (h : parseClientEnvelope (some (.obj fields)) = some e) :
    specCommandValid fields ∧ e.v = 2 ∧ e.seq.den = 1 ∧ 1 ≤ e.seq ∧
      jsGet fields "seq" = some (.num e.seq) ∧
      jsGet fields "feature" = some (.str e.feature) ∧
      1 ≤ e.feature.length ∧ e.feature.length ≤ 64 ∧
      jsGet fields "action" = some (.str e.action) ∧
      1 ≤ e.action.length ∧ e.action.length ≤ 64 ∧
      jsGet fields "clientTime" = some (.num e.clientTime) ∧
      e.payload = jsGet fields "payload" := by
  simp only [parseClientEnvelope, Option.some_bind, asObj, Option.bind_eq_some,
    asNum_eq_some, asStr_eq_some] at h
  obtain ⟨v, hv, kind, hk, seq, hs, feature, hf, action, ha, clientTime, hc, hfin⟩ := h
  split at hfin
  · rename_i hcond
    obtain ⟨hv2, hkc, hsd, hs1, hf1, hf64, ha1, ha64⟩ := hcond
    obtain rfl := Option.some_injective _ hfin
    subst hv2
    subst hkc
    refine ⟨⟨hv, hk, ⟨seq, hs, hsd, hs1⟩, ⟨feature, hf, hf1, hf64⟩,
      ⟨action, ha, ha1, ha64⟩, ⟨clientTime, hc⟩⟩, rfl, hsd, hs1, hs, hf, hf1, hf64,
      ha, ha1, ha64, hc, rfl⟩
  · exact absurd hfin (by simp)

/-- C7: the command parser is a total function that rejects with `null`
(never an exception) whenever the protocol version is not 2, the kind is
not `"command"`, `seq` is not a positive integer, `feature` or `action` is
not a string of 1 to 64 characters, or `clientTime` is not a (finite)
number; when all checks pass it returns a command carrying exactly those
fields plus the opaque payload. -/
theorem C7_parse_client_envelope :
    parseClientEnvelope none = none
    ∧ (∀ j : Json, (∀ fields, j ≠ Json.obj fields) → parseClientEnvelope (some j) = none)
    ∧ (∀ fields, ¬ specCommandValid fields →
        parseClientEnvelope (some (.obj fields)) = none)
    ∧ (∀ (fields : List (String × Json)) (q : ℚ) (f a : String) (t : ℚ),
        jsGet fields "v" = some (.num 2) →
        jsGet fields "kind" = some (.str "command") →
        jsGet fields "seq" = some (.num q) → q.den = 1 → 1 ≤ q →
        jsGet fields "feature" = some (.str f) → 1 ≤ f.length → f.length ≤ 64 →
        jsGet fields "action" = some (.str a) → 1 ≤ a.length → a.length ≤ 64 →
        jsGet fields "clientTime" = some (.num t) →
        parseClientEnvelope (some (.obj fields)) =
          some { v := 2, seq := q, feature := f, action := a, clientTime := t,
                 payload := jsGet fields "payload" })
    ∧ (∀ fields e, parseClientEnvelope (some (.obj fields)) = some e →
        specCommandValid fields ∧ e.v = 2 ∧ e.seq.den = 1 ∧ 1 ≤ e.seq ∧
        jsGet fields "seq" = some (.num e.seq) ∧
        jsGet fields "feature" = some (.str e.feature) ∧
        jsGet fields "action" = some (.str e.action) ∧
        jsGet fields "clientTime" = some (.num e.clientTime) ∧
        e.payload = jsGet fields "payload") := by
  refine ⟨rfl, ?_, ?_, ?_, ?_⟩
  · intro j hj
    cases j with
    | obj fields => exact absurd rfl (hj fields)
    | _ => rfl
  · intro fields hnv
    rcases hp : parseClientEnvelope (some (.obj fields)) with _ | e
    · rfl
    · exact absurd (parseClientEnvelope_some_spec fields e hp).1 hnv
  · intro fields q f a t hv hk hs hsd hs1 hf hf1 hf64 ha ha1 ha64 hc
    simp only [parseClientEnvelope, Option.some_bind, asObj,
      hv, hk, hs, hf, ha, hc, asNum, asStr]
    simp [protocolVersion, hsd, hs1, hf1, hf64, ha1, ha64]
  · intro fields e h
    have hh := parseClientEnvelope_some_spec fields e h
    exact ⟨hh.1, hh.2.1, hh.2.2.1, hh.2.2.2.1, hh.2.2.2.2.1, hh.2.2.2.2.2.1,
      hh.2.2.2.2.2.2.2.2.1, hh.2.2.2.2.2.2.2.2.2.2.2.1, hh.2.2.2.2.2.2.2.2.2.2.2.2⟩

/-- Witness for C7 at a concrete envelope object: a valid version-2 command
with seq 5, feature `movement`, action `input_batch` and a fractional
client timestamp parses to exactly those fields. -/
theorem C7_parse_client_envelope_witness :
    parseClientEnvelope (some (.obj
        [("v", .num 2), ("kind", .str "command"), ("seq", .num 5),
         ("feature", .str "movement"), ("action", .str "input_batch"),
         ("clientTime", .num (3 / 2)), ("payload", .null)])) =
      some { v := 2, seq := 5, feature := "movement", action := "input_batch",
             clientTime := 3 / 2, payload := some .null } := by
  have h := C7_parse_client_envelope.2.2.2.1
    [("v", .num 2), ("kind", .str "command"), ("seq", .num 5),
     ("feature", .str "movement"), ("action", .str "input_batch"),
     ("clientTime", .num (3 / 2)), ("payload", .null)]
    5 "movement" "input_batch" (3 / 2)
    rfl rfl rfl (by decide) (by decide) rfl (by decide) (by decide)
    rfl (by decide) (by decide) rfl
  exact h.trans rfl

/-! ## Command handling (`RoomDurableObject.handleClientCommand`, worker/src/index.ts)

The per-session state is `{ playerId, lastSeq, joinedAt }` with
`lastSeq = 0` at connect time. The feature modules of the room are modelled
abstractly: a lookup table from feature key to a command handler over an
abstract aggregate feature state `σ` (mirroring `this.featureByKey`), so
the theorems hold for every feature set. The handler receives the player
id, action, raw payload and sequence number exactly as
`feature.onCommand(ctx, session.playerId, envelope.action, envelope.payload,
envelope.seq)` does. The observable effects of the method are recorded, in
statement order, as a trace. -/

/-- One live session (`type Session` in the source). -/
structure SessionM where
  playerId : String
  lastSeq : ℚ
  joinedAt : ℚ
  deriving DecidableEq

/-- Result of a feature command handler (`FeatureCommandResult`): whether
state changed; the handler's events are fanned out by
`dispatchFeatureResult` and do not affect the room state, so only their
count is kept abstract here via the handler's new state. -/
structure FeatureResultM where
  stateChanged : Bool
  deriving DecidableEq

/-- Observable effects of `handleClientCommand`, in statement order. -/
inductive TraceItem where
  | ackSent (feature action : String) (seq : ℚ)
  | pongSent (seq : ℚ)
  | errorSent (feature action : String)
  | lastSeqSet (seq : ℚ)
  | featureDispatched (key : String)
  | snapshotBroadcast
  deriving DecidableEq

/-- The state and effect trace produced by one `handleClientCommand` call. -/
structure CommandOutcome (σ : Type) where
  session : SessionM
  featureState : σ
  trace : List TraceItem

/-- `RoomDurableObject.handleClientCommand`. Stale sequence numbers
(`envelope.seq <= session.lastSeq`) are re-acked and dropped; fresh ones
update `session.lastSeq` first, then either answer the reserved
`core`/`ping` keepalive, reply with a typed error for an unknown feature
key, or dispatch to the addressed feature handler, ack, and broadcast a
snapshot if the handler reported a state change. -/
def handleClientCommand {σ : Type}
    (featureByKey : String → Option (σ → String → String → Option Json → ℚ → σ × FeatureResultM))
    (session : SessionM) (fs : σ) (env : ClientCommandEnvelopeM) : CommandOutcome σ :=
  if env.seq ≤ session.lastSeq then
    { session := session, featureState := fs,
      trace := [.ackSent env.feature env.action env.seq] }
  else
    let session' := { session with lastSeq := env.seq }
    if env.feature = "core" ∧ env.action = "ping" then
      { session := session', featureState := fs,
        trace := [.lastSeqSet env.seq, .pongSent env.seq,
                  .ackSent env.feature env.action env.seq] }
    else
      match featureByKey env.feature with
      | none =>
        { session := session', featureState := fs,
          trace := [.lastSeqSet env.seq, .errorSent env.feature env.action,
                    .ackSent env.feature env.action env.seq] }
      | some handler =>
        let r := handler fs session.playerId env.action env.payload env.seq
        { session := session', featureState := r.1,
          trace := [.lastSeqSet env.seq, .featureDispatched env.feature,
                    .ackSent env.feature env.action env.seq] ++
            (if r.2.stateChanged then [.snapshotBroadcast] else []) }

/-- C1: processing a command with sequence number `s2`, then a
retransmission with `s1 < s2` (or any seq at or below the session's
last-acknowledged number) re-acks the stale command but dispatches to no
feature module and leaves the session and all feature state unchanged; a
fresh sequence number is written to `session.lastSeq` before the feature
handler is invoked (the first trace effect is the `lastSeq` update). -/
theorem C1_sequence_number_dedup {σ : Type}
    (featureByKey : String → Option (σ → String → String → Option Json → ℚ → σ × FeatureResultM))
    (session : SessionM) (fs : σ) :
    (∀ e1 e2 : ClientCommandEnvelopeM, e1.seq < e2.seq → session.lastSeq < e2.seq →
      (handleClientCommand featureByKey
          (handleClientCommand featureByKey session fs e2).session
          (handleClientCommand featureByKey session fs e2).featureState e1) =
        { session := (handleClientCommand featureByKey session fs e2).session,
          featureState := (handleClientCommand featureByKey session fs e2).featureState,
          trace := [.ackSent e1.feature e1.action e1.seq] })
    ∧ (∀ e : ClientCommandEnvelopeM, e.seq ≤ session.lastSeq →
        handleClientCommand featureByKey session fs e =
          { session := session, featureState := fs,
            trace := [.ackSent e.feature e.action e.seq] })
    ∧ (∀ e : ClientCommandEnvelopeM, session.lastSeq < e.seq →
        (handleClientCommand featureByKey session fs e).session.lastSeq = e.seq ∧
        ∃ rest, (handleClientCommand featureByKey session fs e).trace =
          .lastSeqSet e.seq :: rest) := by
  have hstale : ∀ (s : SessionM) (g : σ) (e : ClientCommandEnvelopeM),
      e.seq ≤ s.lastSeq →
      handleClientCommand featureByKey s g e =
        { session := s, featureState := g,
          trace := [.ackSent e.feature e.action e.seq] } := by
    intro s g e he
    simp [handleClientCommand, he]
  have hfreshSeq : ∀ (s : SessionM) (g : σ) (e : ClientCommandEnvelopeM),
      s.lastSeq < e.seq →
      (handleClientCommand featureByKey s g e).session.lastSeq = e.seq := by
    intro s g e he
    have hne : ¬ e.seq ≤ s.lastSeq := not_le.mpr he
    simp only [handleClientCommand, if_neg hne]
    by_cases hc : e.feature = "core" ∧ e.action = "ping"
    · rw [if_pos hc]
    · rw [if_neg hc]
      cases featureByKey e.feature <;> simp
  refine ⟨?_, ?_, ?_⟩
  · intro e1 e2 h12 hs2
    have hl2 : (handleClientCommand featureByKey session fs e2).session.lastSeq = e2.seq :=
      hfreshSeq session fs e2 hs2
    exact hstale _ _ e1 (by rw [hl2]; exact le_of_lt h12)
  · intro e he
    exact hstale session fs e he
  · intro e he
    refine ⟨hfreshSeq session fs e he, ?_⟩
    have hne : ¬ e.seq ≤ session.lastSeq := not_le.mpr he
    simp only [handleClientCommand, if_neg hne]
    by_cases hc : e.feature = "core" ∧ e.action = "ping"
    · rw [if_pos hc]
      exact ⟨_, rfl⟩
    · rw [if_neg hc]
      cases featureByKey e.feature <;> exact ⟨_, rfl⟩

/-- Witness for C1 at concrete inputs: one feature table with a single
always-mutating counter feature under key `"projectile"`; seq 2 then a
retransmitted seq 1 re-acks without a second dispatch or state change, and
a fresh seq 2 sets `lastSeq` first. -/
theorem C1_sequence_number_dedup_witness :
    (handleClientCommand
        (fun key => if key = "projectile"
          then some (fun (n : Nat) _ _ _ _ => (n + 1, { stateChanged := true }))
          else none)
        (handleClientCommand
          (fun key => if key = "projectile"
            then some (fun (n : Nat) _ _ _ _ => (n + 1, { stateChanged := true }))
            else none)
          { playerId := "p1", lastSeq := 0, joinedAt := 0 } 0
          { v := 2, seq := 2, feature := "projectile", action := "fire",
            clientTime := 0, payload := none }).session
        (handleClientCommand
          (fun key => if key = "projectile"
            then some (fun (n : Nat) _ _ _ _ => (n + 1, { stateChanged := true }))
            else none)
          { playerId := "p1", lastSeq := 0, joinedAt := 0 } 0
          { v := 2, seq := 2, feature := "projectile", action := "fire",
            clientTime := 0, payload := none }).featureState
        { v := 2, seq := 1, feature := "projectile", action := "fire",
          clientTime := 0, payload := none }).trace =
      [.ackSent "projectile" "fire" 1] := by
  have h := (C1_sequence_number_dedup
    (fun key => if key = "projectile"
      then some (fun (n : Nat) _ _ _ _ => (n + 1, { stateChanged := true }))
      else none)
    { playerId := "p1", lastSeq := 0, joinedAt := 0 } 0).1
    { v := 2, seq := 1, feature := "projectile", action := "fire",
      clientTime := 0, payload := none }
    { v := 2, seq := 2, feature := "projectile", action := "fire",
      clientTime := 0, payload := none }
    (by norm_num) (by norm_num)
  rw [h]

/-! ## Projectile feature (`worker/src/features/projectile-feature.ts`)

Constants from the source: `MAX_PROJECTILES = 4096`, `PROJECTILE_TTL_MS = 1800`,
`MAX_SPEED = 700`, `MAP_LIMIT = 5500`. The speed cap computes
`Math.hypot(vx, vy)`, an irrational quantity, so the velocity math is
modelled over `ℝ`; timestamps stay in `ℚ`. -/

/-- Event targets of `FeatureEvent` (`worker/src/framework/feature.ts`). -/
inductive EventTarget where
  | room
  | self
  | player (playerId : String)

/-- A feature event (`FeatureEvent`). -/
structure FeatureEventM where
  target : EventTarget
  feature : String
  action : String
  payload : Json

/-- A feature command result carrying events (`FeatureCommandResult`). -/
structure FeatureCmdResultM where
  stateChanged : Bool
  events : List FeatureEventM

/-- `MAX_SPEED = 700`. -/
noncomputable def maxSpeed : ℝ := 700

/-- `MAX_PROJECTILES = 4096`. -/
def maxProjectiles : Nat := 4096

/-- `PROJECTILE_TTL_MS = 1800`. -/
def projectileTtlMs : ℚ := 1800

/-- `MAP_LIMIT = 5500` in the projectile feature. -/
noncomputable def projMapLimit : ℝ := 5500

/-- Modelled from the spec: the numeric integration kernel
(`sim-core/sim_core.wasm`) is a compiled binary absent from src/; per spec
section 1 it is a stateless pure function, and `clampPosition(value, limit)`
(`sim_integrate_position(value, 0, 0, limit)`) clamps a coordinate to the
map boundary `[-limit, limit]`. -/
noncomputable def clampNum (v limit : ℝ) : ℝ := max (-limit) (min limit v)

/-- The speed-cap computation in `ProjectileFeature.onCommand`:
`speed = Math.hypot(vx, vy)`;
`scale = speed > MAX_SPEED && speed > 0 ? MAX_SPEED / speed : 1`;
stored velocity is `(vx * scale, vy * scale)`. -/
noncomputable def capVelocity (vx vy : ℝ) : ℝ × ℝ :=
  let speed := Real.sqrt (vx ^ 2 + vy ^ 2)
  let scale := if maxSpeed < speed ∧ 0 < speed then maxSpeed / speed else 1
  (vx * scale, vy * scale)

/-- A row of the `projectile_state` table (`projectile_id` is the primary
key). -/
structure ProjRow where
  id : String
  ownerId : String
  x : ℝ
  y : ℝ
  vx : ℝ
  vy : ℝ
  expiresAt : ℚ
  updatedAt : ℚ
  clientProjectileId : Option String

/-- The comparator of the eviction query (`ORDER BY updated_at ASC`; ties
keep rowid i.e. insertion order, which the stable merge sort models). -/
def projLe (a b : ProjRow) : Bool := decide (a.updatedAt ≤ b.updatedAt)

/-- The rows selected by the eviction subquery:
`SELECT projectile_id FROM projectile_state ORDER BY updated_at ASC LIMIT MAX(0, COUNT(*) - 4096)`. -/
def evictVictims (tbl : List ProjRow) : List ProjRow :=
  (tbl.mergeSort projLe).take (tbl.length - maxProjectiles)

/-- The `DELETE FROM projectile_state WHERE projectile_id IN (...)` statement
run after every insert. -/
def evictOverflow (tbl : List ProjRow) : List ProjRow :=
  tbl.filter (fun r => r.id ∉ (evictVictims tbl).map (fun v => v.id))

/-- The parsed `fire` payload (`parseFirePayload`): finite numbers `x`, `y`,
`vx`, `vy` and an optional string `clientProjectileId`. -/
structure FirePayloadM where
  x : ℚ
  y : ℚ
  vx : ℚ
  vy : ℚ
  clientProjectileId : Option String

/-- `parseFirePayload` from the source: reject non-objects, non-number or
non-finite coordinates, and a present but non-string `clientProjectileId`. -/
def parseFirePayload : Json → Option FirePayloadM
  | .obj fields =>
    match asNum (jsGet fields "x"), asNum (jsGet fields "y"),
        asNum (jsGet fields "vx"), asNum (jsGet fields "vy") with
    | some x, some y, some vx, some vy =>
      match jsGet fields "clientProjectileId" with
      | none => some { x := x, y := y, vx := vx, vy := vy, clientProjectileId := none }
      | some (.str cid) =>
        some { x := x, y := y, vx := vx, vy := vy, clientProjectileId := some cid }
      | some _ => none
    | _, _, _, _ => none
  | _ => none

/-- The insert-then-evict effect of a validated `projectile.fire` command:
build the row (position clamped, velocity capped, `expires_at = now + TTL`,
`updated_at = now`), append it, and evict past the capacity. `projectileId`
stands for the `crypto.randomUUID()` result. -/
noncomputable def projectileFire (tbl : List ProjRow) (projectileId playerId : String)
    (p : FirePayloadM) (now : ℚ) : List ProjRow :=
  let capped := capVelocity (p.vx : ℝ) (p.vy : ℝ)
  let row : ProjRow :=
    { id := projectileId, ownerId := playerId,
      x := clampNum (p.x : ℝ) projMapLimit, y := clampNum (p.y : ℝ) projMapLimit,
      vx := capped.1, vy := capped.2,
      expiresAt := now + projectileTtlMs, updatedAt := now,
      clientProjectileId := p.clientProjectileId }
  evictOverflow (tbl ++ [row])

/-- `ProjectileFeature.onCommand`: non-`fire` actions and invalid payloads
leave the table untouched and reply with a self-targeted event; a valid
`fire` inserts and evicts, reporting a state change. -/
noncomputable def projectileOnCommand (tbl : List ProjRow) (playerId action : String)
    (payload : Json) (freshId : String) (now : ℚ) : List ProjRow × FeatureCmdResultM :=
  if action ≠ "fire" then
    (tbl, { stateChanged := false,
            events := [{ target := .self, feature := "projectile",
                         action := "invalid_action",
                         payload := .obj [("action", .str action)] }] })
  else
    match parseFirePayload payload with
    | none =>
      (tbl, { stateChanged := false,
              events := [{ target := .self, feature := "projectile",
                           action := "invalid_payload", payload := .obj [] }] })
    | some p =>
      (projectileFire tbl freshId playerId p now,
       { stateChanged := true, events := [] })

/-- One client command addressed to the projectile feature, with the server
context it runs under (`freshId` is the `crypto.randomUUID()` drawn for it). -/
structure FireCmd where
  playerId : String
  action : String
  payload : Json
  freshId : String
  now : ℚ

/-- The table after one projectile command. -/
noncomputable def projectileStep (tbl : List ProjRow) (c : FireCmd) : List ProjRow :=
  (projectileOnCommand tbl c.playerId c.action c.payload c.freshId c.now).1

/-- The table after a sequence of projectile commands, starting empty. -/
noncomputable def projectileRun (cmds : List FireCmd) : List ProjRow :=
  cmds.foldl projectileStep []

theorem filter_not_mem_length (ids vIds : List String)
    (hN : ids.Nodup) (hSub : ∀ i ∈ vIds, i ∈ ids) (hVN : vIds.Nodup) :
    (ids.filter (fun i => i ∉ vIds)).length = ids.length - vIds.length := by
  have hperm := List.filter_append_perm (fun i => decide (i ∈ vIds)) ids
  have hmem : (ids.filter (fun i => decide (i ∈ vIds))).Perm vIds := by
    rw [List.perm_ext_iff_of_nodup (hN.filter _) hVN]
    intro a
    simp only [List.mem_filter, decide_eq_true_eq]
    exact ⟨fun h => h.2, fun h => ⟨hSub a h, h⟩⟩
  have hlen := hperm.length_eq
  rw [List.length_append] at hlen
  have hv := hmem.length_eq
  have hrw : (ids.filter (fun i => i ∉ vIds)) =
      ids.filter (fun i => !(decide (i ∈ vIds))) := by
    simp only [decide_not]
  rw [hrw]
  omega

theorem evictVictims_sublist_sorted (tbl : List ProjRow) :
    (evictVictims tbl).Sublist (tbl.mergeSort projLe) :=
  List.take_sublist _ _

theorem evictVictims_ids_nodup (tbl : List ProjRow)
    (hN : (tbl.map (fun r => r.id)).Nodup) :
    ((evictVictims tbl).map (fun v => v.id)).Nodup := by
  have hperm : ((tbl.mergeSort projLe).map (fun r => r.id)).Perm
      (tbl.map (fun r => r.id)) := (List.mergeSort_perm tbl projLe).map _
  exact (hperm.nodup_iff.mpr hN).sublist ((evictVictims_sublist_sorted tbl).map _)

theorem evictVictims_mem (tbl : List ProjRow) {v : ProjRow}
    (hv : v ∈ evictVictims tbl) : v ∈ tbl :=
  (List.mergeSort_perm tbl projLe).mem_iff.mp ((evictVictims_sublist_sorted tbl).mem hv)

theorem evictVictims_length (tbl : List ProjRow) :
    (evictVictims tbl).length = tbl.length - maxProjectiles := by
  unfold evictVictims
  rw [List.length_take, (List.mergeSort_perm tbl projLe).length_eq]
  omega

theorem evictOverflow_length (tbl : List ProjRow)
    (hN : (tbl.map (fun r => r.id)).Nodup) :
    (evictOverflow tbl).length = min tbl.length maxProjectiles := by
  unfold evictOverflow
  have hkl : (tbl.filter
        (fun r => r.id ∉ (evictVictims tbl).map (fun v => v.id))).length =
      ((tbl.map (fun r => r.id)).filter
        (fun i => i ∉ (evictVictims tbl).map (fun v => v.id))).length := by
    rw [← List.countP_eq_length_filter, ← List.countP_eq_length_filter,
      List.countP_map, Function.comp_def]
  rw [hkl, filter_not_mem_length _ _ hN
    (by
      intro i hi
      obtain ⟨v, hv, rfl⟩ := List.mem_map.mp hi
      exact List.mem_map.mpr ⟨v, evictVictims_mem tbl hv, rfl⟩)
    (evictVictims_ids_nodup tbl hN)]
  simp only [List.length_map]
  rw [evictVictims_length]
  omega

theorem evictOverflow_order (tbl : List ProjRow) :
    ∀ v ∈ evictVictims tbl, ∀ r ∈ evictOverflow tbl,
      v.updatedAt ≤ r.updatedAt := by
  intro v hv r hr
  have htrans : ∀ a b c : ProjRow, projLe a b = true → projLe b c = true →
      projLe a c = true := by
    intro a b c hab hbc
    simp only [projLe, decide_eq_true_eq] at hab hbc ⊢
    exact le_trans hab hbc
  have htotal : ∀ a b : ProjRow, (projLe a b || projLe b a) = true := by
    intro a b
    simp only [projLe, Bool.or_eq_true, decide_eq_true_eq]
    exact le_total _ _
  have hsorted := List.sorted_mergeSort htrans htotal tbl
  set k := tbl.length - maxProjectiles with hk
  have hsplit : (tbl.mergeSort projLe).take k ++ (tbl.mergeSort projLe).drop k =
      tbl.mergeSort projLe := List.take_append_drop _ _
  have hpw := List.pairwise_append.mp (by rw [hsplit]; exact hsorted)
  obtain ⟨hkept, hknot⟩ := List.mem_filter.mp hr
  have hrs : r ∈ tbl.mergeSort projLe := (List.mergeSort_perm tbl projLe).mem_iff.mpr hkept
  have hrdrop : r ∈ (tbl.mergeSort projLe).drop k := by
    rcases (List.mem_append.mp (by rw [hsplit]; exact hrs)) with htk | hdp
    · exfalso
      simp only [decide_eq_true_eq] at hknot
      exact hknot (List.mem_map.mpr ⟨r, htk, rfl⟩)
    · exact hdp
  have hle := hpw.2.2 v hv r hrdrop
  simpa [projLe] using hle

theorem evictOverflow_sublist (tbl : List ProjRow) :
    (evictOverflow tbl).Sublist tbl :=
  List.filter_sublist _

theorem projectileStep_cases (tbl : List ProjRow) (c : FireCmd) :
    projectileStep tbl c = tbl ∨
    ∃ row : ProjRow, row.id = c.freshId ∧
      projectileStep tbl c = evictOverflow (tbl ++ [row]) := by
  by_cases ha : c.action ≠ "fire"
  · left
    simp [projectileStep, projectileOnCommand, ha]
  · rcases hp : parseFirePayload c.payload with _ | p
    · left
      simp [projectileStep, projectileOnCommand, ha, hp]
    · right
      refine ⟨{ id := c.freshId, ownerId := c.playerId,
                x := clampNum (p.x : ℝ) projMapLimit,
                y := clampNum (p.y : ℝ) projMapLimit,
                vx := (capVelocity (p.vx : ℝ) (p.vy : ℝ)).1,
                vy := (capVelocity (p.vx : ℝ) (p.vy : ℝ)).2,
                expiresAt := c.now + projectileTtlMs, updatedAt := c.now,
                clientProjectileId := p.clientProjectileId }, rfl, ?_⟩
      simp [projectileStep, projectileOnCommand, ha, hp, projectileFire]

theorem projectileFold_invariant (cmds : List FireCmd) : ∀ tbl : List ProjRow,
    (tbl.map (fun r => r.id)).Nodup →
    tbl.length ≤ maxProjectiles →
    (∀ c ∈ cmds, ∀ r ∈ tbl, ¬ c.freshId = r.id) →
    (cmds.map (fun c => c.freshId)).Nodup →
    ((cmds.foldl projectileStep tbl).map (fun r => r.id)).Nodup ∧
    (cmds.foldl projectileStep tbl).length ≤ maxProjectiles ∧
    ∀ r ∈ cmds.foldl projectileStep tbl,
      r ∈ tbl ∨ r.id ∈ cmds.map (fun c => c.freshId) := by
  induction cmds with
  | nil =>
    intro tbl hN hL _ _
    exact ⟨hN, hL, fun r hr => Or.inl hr⟩
  | cons c rest ih =>
    intro tbl hN hL hF hCN
    rw [List.map_cons, List.nodup_cons] at hCN
    obtain ⟨hnotin, htail⟩ := hCN
    rcases projectileStep_cases tbl c with hstep | ⟨row, hrowid, hstep⟩
    · simp only [List.foldl_cons, hstep]
      have hF' : ∀ c' ∈ rest, ∀ r ∈ tbl, ¬ c'.freshId = r.id :=
        fun c' hc' => hF c' (List.mem_cons_of_mem _ hc')
      obtain ⟨h1, h2, h3⟩ := ih tbl hN hL hF' htail
      refine ⟨h1, h2, fun r hr => ?_⟩
      rcases h3 r hr with h | h
      · exact Or.inl h
      · exact Or.inr (by simpa using Or.inr (by simpa using h))
    · simp only [List.foldl_cons, hstep]
      have hfresh : c.freshId ∉ tbl.map (fun r => r.id) := by
        intro hmem
        obtain ⟨r, hr, hi⟩ := List.mem_map.mp hmem
        exact hF c (List.mem_cons_self c rest) r hr hi.symm
      have hN1 : ((tbl ++ [row]).map (fun r => r.id)).Nodup := by
        rw [List.map_append, List.nodup_append]
        refine ⟨hN, by simp, ?_⟩
        intro i hi
        simp only [List.map_cons, List.map_nil, List.mem_singleton]
        intro hieq
        rw [hieq, hrowid] at hi
        exact hfresh hi
      set t1 := evictOverflow (tbl ++ [row]) with ht1
      have hsub : t1.Sublist (tbl ++ [row]) := evictOverflow_sublist _
      have hN' : (t1.map (fun r => r.id)).Nodup := hN1.sublist (hsub.map _)
      have hL' : t1.length ≤ maxProjectiles := by
        rw [ht1, evictOverflow_length _ hN1]
        exact min_le_right _ _
      have hmem1 : ∀ r ∈ t1, r ∈ tbl ∨ r.id = c.freshId := by
        intro r hr
        rcases List.mem_append.mp (hsub.mem hr) with h | h
        · exact Or.inl h
        · right
          rw [List.mem_singleton.mp h, hrowid]
      have hF' : ∀ c' ∈ rest, ∀ r ∈ t1, ¬ c'.freshId = r.id := by
        intro c' hc' r hr heq
        rcases hmem1 r hr with h | h
        · exact hF c' (List.mem_cons_of_mem _ hc') r h heq
        · rw [h] at heq
          exact hnotin (heq ▸ List.mem_map.mpr ⟨c', hc', rfl⟩)
      obtain ⟨h1, h2, h3⟩ := ih t1 hN' hL' hF' htail
      refine ⟨h1, h2, fun r hr => ?_⟩
      rcases h3 r hr with h | h
      · rcases hmem1 r h with h' | h'
        · exact Or.inl h'
        · exact Or.inr (by simp [h'])
      · exact Or.inr (by simpa using Or.inr (by simpa using h))

/-- C3: after any sequence of projectile commands starting from an empty
table (with the server-generated projectile ids distinct, as
`crypto.randomUUID()` guarantees), the number of stored projectiles never
exceeds the capacity of 4096; and for any table whose primary keys are
distinct, the eviction run after an insert deletes exactly
`count - 4096` rows (leaving `min count 4096`), and every evicted row has
an `updated_at` no larger than that of every retained row — the evicted
rows are exactly the least-recently-updated ones. -/
theorem C3_projectile_capacity :
    (∀ cmds : List FireCmd, (cmds.map (fun c => c.freshId)).Nodup →
      (projectileRun cmds).length ≤ maxProjectiles)
    ∧ (∀ tbl : List ProjRow, (tbl.map (fun r => r.id)).Nodup →
        (evictOverflow tbl).length = min tbl.length maxProjectiles ∧
        (evictVictims tbl).length = tbl.length - maxProjectiles ∧
        ∀ v ∈ evictVictims tbl, ∀ r ∈ evictOverflow tbl,
          v.updatedAt ≤ r.updatedAt) := by
  constructor
  · intro cmds hCN
    exact (projectileFold_invariant cmds [] (by simp) (by simp)
      (by intro c _ r hr; simp at hr) hCN).2.1
  · intro tbl hN
    exact ⟨evictOverflow_length tbl hN, evictVictims_length tbl,
      evictOverflow_order tbl⟩

/-- Witness for C3 at concrete inputs: two valid `fire` commands with
distinct server ids keep the table within capacity, and eviction on a
two-row table keeps both rows. -/
theorem C3_projectile_capacity_witness :
    (projectileRun
        [{ playerId := "p1", action := "fire",
           payload := .obj [("x", .num 1), ("y", .num 2), ("vx", .num 3), ("vy", .num 4)],
           freshId := "a", now := 10 },
         { playerId := "p2", action := "fire",
           payload := .obj [("x", .num 5), ("y", .num 6), ("vx", .num 7), ("vy", .num 8)],
           freshId := "b", now := 20 }]).length ≤ maxProjectiles
    ∧ (evictOverflow
        [{ id := "a", ownerId := "p1", x := 1, y := 2, vx := 3, vy := 4,
           expiresAt := 1810, updatedAt := 10, clientProjectileId := none },
         { id := "b", ownerId := "p2", x := 5, y := 6, vx := 7, vy := 8,
           expiresAt := 1820, updatedAt := 20, clientProjectileId := none }]).length =
      min 2 maxProjectiles := by
  constructor
  · exact C3_projectile_capacity.1 _ (by decide)
  · exact (C3_projectile_capacity.2
      [{ id := "a", ownerId := "p1", x := 1, y := 2, vx := 3, vy := 4,
         expiresAt := 1810, updatedAt := 10, clientProjectileId := none },
       { id := "b", ownerId := "p2", x := 5, y := 6, vx := 7, vy := 8,
         expiresAt := 1820, updatedAt := 20, clientProjectileId := none }]
      (by decide)).1

theorem capVelocity_over (vx vy : ℝ) (h : maxSpeed < Real.sqrt (vx ^ 2 + vy ^ 2)) :
    capVelocity vx vy =
      (vx * (maxSpeed / Real.sqrt (vx ^ 2 + vy ^ 2)),
       vy * (maxSpeed / Real.sqrt (vx ^ 2 + vy ^ 2))) := by
  have hs0 : 0 < Real.sqrt (vx ^ 2 + vy ^ 2) := lt_trans (by norm_num [maxSpeed]) h
  simp only [capVelocity]
  rw [if_pos ⟨h, hs0⟩]

theorem capVelocity_under (vx vy : ℝ) (h : Real.sqrt (vx ^ 2 + vy ^ 2) ≤ maxSpeed) :
    capVelocity vx vy = (vx, vy) := by
  simp only [capVelocity]
  rw [if_neg]
  · simp
  · rintro ⟨h1, _⟩
    exact absurd h (not_le.mpr h1)

theorem capVelocity_mag (vx vy : ℝ) (h : maxSpeed < Real.sqrt (vx ^ 2 + vy ^ 2)) :
    Real.sqrt ((capVelocity vx vy).1 ^ 2 + (capVelocity vx vy).2 ^ 2) = maxSpeed := by
  have hs0 : 0 < Real.sqrt (vx ^ 2 + vy ^ 2) := lt_trans (by norm_num [maxSpeed]) h
  have hssq : Real.sqrt (vx ^ 2 + vy ^ 2) ^ 2 = vx ^ 2 + vy ^ 2 :=
    Real.sq_sqrt (by positivity)
  have hne : Real.sqrt (vx ^ 2 + vy ^ 2) ≠ 0 := ne_of_gt hs0
  have hsum : vx ^ 2 + vy ^ 2 ≠ 0 := by
    rw [← hssq]
    exact pow_ne_zero 2 hne
  have hcalc : (vx * (maxSpeed / Real.sqrt (vx ^ 2 + vy ^ 2))) ^ 2 +
      (vy * (maxSpeed / Real.sqrt (vx ^ 2 + vy ^ 2))) ^ 2 = maxSpeed ^ 2 := by
    simp only [mul_pow, div_pow]
    rw [← add_mul, hssq, mul_comm, div_mul_eq_mul_div, mul_div_assoc,
      div_self hsum, mul_one]
  simp only [capVelocity_over vx vy h]
  rw [hcalc]
  exact Real.sqrt_sq (by norm_num [maxSpeed])

/-- C5: for every fire velocity whose magnitude `Math.hypot(vx, vy)` exceeds
the cap of 700, the stored velocity has magnitude exactly 700 with both
components scaled by the same positive factor (direction preserved); a
magnitude at or below 700 is stored unchanged, so velocity is never scaled
up; and firing with `vx = 1000, vy = 0` stores `vx = 700, vy = 0`. -/
theorem C5_projectile_speed_cap :
    (∀ vx vy : ℝ, maxSpeed < Real.sqrt (vx ^ 2 + vy ^ 2) →
      Real.sqrt ((capVelocity vx vy).1 ^ 2 + (capVelocity vx vy).2 ^ 2) = maxSpeed ∧
      ∃ c : ℝ, 0 < c ∧ (capVelocity vx vy).1 = c * vx ∧ (capVelocity vx vy).2 = c * vy)
    ∧ (∀ vx vy : ℝ, Real.sqrt (vx ^ 2 + vy ^ 2) ≤ maxSpeed →
        capVelocity vx vy = (vx, vy))
    ∧ (∀ vx vy : ℝ,
        Real.sqrt ((capVelocity vx vy).1 ^ 2 + (capVelocity vx vy).2 ^ 2) ≤
          Real.sqrt (vx ^ 2 + vy ^ 2))
    ∧ capVelocity 1000 0 = (700, 0) := by
  have h1000 : Real.sqrt ((1000 : ℝ) ^ 2 + (0 : ℝ) ^ 2) = 1000 := by
    rw [show ((1000 : ℝ) ^ 2 + (0 : ℝ) ^ 2) = 1000 ^ 2 by norm_num]
    exact Real.sqrt_sq (by norm_num)
  refine ⟨?_, capVelocity_under, ?_, ?_⟩
  · intro vx vy h
    have hs0 : 0 < Real.sqrt (vx ^ 2 + vy ^ 2) := lt_trans (by norm_num [maxSpeed]) h
    refine ⟨capVelocity_mag vx vy h,
      ⟨maxSpeed / Real.sqrt (vx ^ 2 + vy ^ 2),
        div_pos (by norm_num [maxSpeed]) hs0, ?_, ?_⟩⟩
    · simp only [capVelocity_over vx vy h]
      ring
    · simp only [capVelocity_over vx vy h]
      ring
  · intro vx vy
    by_cases hc : maxSpeed < Real.sqrt (vx ^ 2 + vy ^ 2)
    · rw [capVelocity_mag vx vy hc]
      exact le_of_lt hc
    · simp only [capVelocity_under vx vy (not_lt.mp hc)]
      exact le_refl _
  · rw [capVelocity_over 1000 0 (by rw [h1000]; norm_num [maxSpeed])]
    rw [h1000]
    norm_num [maxSpeed]

/-- Witness for C5 at the concrete input of the spec scenario: the stored
magnitude for a fire at `vx = 1000, vy = 0` is exactly the 700 cap. -/
theorem C5_projectile_speed_cap_witness :
    Real.sqrt ((capVelocity 1000 0).1 ^ 2 + (capVelocity 1000 0).2 ^ 2) = maxSpeed := by
  have h1000 : Real.sqrt ((1000 : ℝ) ^ 2 + (0 : ℝ) ^ 2) = 1000 := by
    rw [show ((1000 : ℝ) ^ 2 + (0 : ℝ) ^ 2) = 1000 ^ 2 by norm_num]
    exact Real.sqrt_sq (by norm_num)
  exact (C5_projectile_speed_cap.1 1000 0 (by rw [h1000]; norm_num [maxSpeed])).1

/-! ## Build feature (`worker/src/features/build-feature.ts`)

The `build_structures` table (`structure_id` primary key) with
`ALLOWED_KINDS = ['beacon', 'miner', 'assembler']` and coordinates clamped
into `[-5000, 5000]`. Placement inserts with
`ON CONFLICT(structure_id) DO NOTHING` and unconditionally emits a
room-targeted `placed` event built from the command, not from the stored
row. -/

/-- A row of `build_structures`. -/
structure BuildRow where
  id : String
  ownerId : String
  kind : String
  x : ℚ
  y : ℚ
  createdAt : ℚ
  deriving DecidableEq

/-- `ALLOWED_KINDS`. -/
def allowedKinds : List String := ["beacon", "miner", "assembler"]

/-- `clamp(value) = Math.max(-5000, Math.min(5000, value))`. -/
def buildClamp (v : ℚ) : ℚ := max (-5000) (min 5000 v)

/-- The parsed `place` payload (`parsePlacePayload`). -/
structure PlacePayloadM where
  x : ℚ
  y : ℚ
  kind : String
  clientBuildId : Option String
  deriving DecidableEq

/-- `parsePlacePayload` from the source: finite numeric coordinates, a kind
from the allow-list, and an optional string `clientBuildId`. -/
def parsePlacePayload : Json → Option PlacePayloadM
  | .obj fields =>
    match asNum (jsGet fields "x"), asNum (jsGet fields "y"),
        asStr (jsGet fields "kind") with
    | some x, some y, some kind =>
      if allowedKinds.contains kind then
        match jsGet fields "clientBuildId" with
        | none => some { x := x, y := y, kind := kind, clientBuildId := none }
        | some (.str cid) =>
          some { x := x, y := y, kind := kind, clientBuildId := some cid }
        | some _ => none
      else none
    | _, _, _ => none
  | _ => none

/-- `BuildFeature.onCommand`: `place` validates, picks the structure id
(the non-empty client-suggested id, else the fresh `crypto.randomUUID()`),
clamps the position, inserts with `ON CONFLICT DO NOTHING`, and emits a
room-wide `placed` event built from the command values; `remove` validates
an id string and deletes unconditionally; other actions are rejected. -/
def buildOnCommand (tbl : List BuildRow) (playerId action : String) (payload : Json)
    (freshId : String) (now : ℚ) : List BuildRow × FeatureCmdResultM :=
  if action = "place" then
    match parsePlacePayload payload with
    | none =>
      (tbl, { stateChanged := false,
              events := [{ target := .self, feature := "build",
                           action := "invalid_payload", payload := .obj [] }] })
    | some parsed =>
      let structureId :=
        match parsed.clientBuildId with
        | some cid => if 0 < cid.length then cid else freshId
        | none => freshId
      let x := buildClamp parsed.x
      let y := buildClamp parsed.y
      let tbl1 :=
        if tbl.any (fun row => row.id = structureId) then tbl
        else tbl ++ [{ id := structureId, ownerId := playerId, kind := parsed.kind,
                       x := x, y := y, createdAt := now }]
      (tbl1,
       { stateChanged := true,
         events := [{ target := .room, feature := "build", action := "placed",
                      payload := .obj
                        [("id", .str structureId), ("ownerId", .str playerId),
                         ("kind", .str parsed.kind), ("x", .num x),
                         ("y", .num y)] }] })
  else if action = "remove" then
    match payload with
    | .obj fields =>
      match asStr (jsGet fields "id") with
      | some removeId =>
        (tbl.filter (fun row => ¬ row.id = removeId),
         { stateChanged := true, events := [] })
      | none =>
        (tbl, { stateChanged := false,
                events := [{ target := .self, feature := "build",
                             action := "invalid_payload", payload := .obj [] }] })
    | _ =>
      (tbl, { stateChanged := false,
              events := [{ target := .self, feature := "build",
                           action := "invalid_payload", payload := .obj [] }] })
  else
    (tbl, { stateChanged := false,
            events := [{ target := .self, feature := "build",
                         action := "invalid_action",
                         payload := .obj [("action", .str action)] }] })

/-- C9: a `build.place` whose `clientBuildId` matches an already-stored
structure id leaves the table unchanged (insert-or-ignore on id conflict),
yet still reports `stateChanged` and emits a room-targeted `placed` event
carrying the new command's owner id, kind and clamped position — values
that may differ from the stored structure with that id. -/
theorem C9_build_place_id_conflict (tbl : List BuildRow) (playerId : String)
    (x y : ℚ) (kind cid freshId : String) (now : ℚ)
    (hkind : allowedKinds.contains kind)
    (hcid : 0 < cid.length)
    (hdup : tbl.any (fun row => row.id = cid)) :
    (buildOnCommand tbl playerId "place"
        (.obj [("x", .num x), ("y", .num y), ("kind", .str kind),
               ("clientBuildId", .str cid)]) freshId now).1 = tbl
    ∧ (buildOnCommand tbl playerId "place"
        (.obj [("x", .num x), ("y", .num y), ("kind", .str kind),
               ("clientBuildId", .str cid)]) freshId now).2.stateChanged = true
    ∧ (buildOnCommand tbl playerId "place"
        (.obj [("x", .num x), ("y", .num y), ("kind", .str kind),
               ("clientBuildId", .str cid)]) freshId now).2.events =
      [{ target := .room, feature := "build", action := "placed",
         payload := .obj
           [("id", .str cid), ("ownerId", .str playerId), ("kind", .str kind),
            ("x", .num (buildClamp x)), ("y", .num (buildClamp y))] }] := by
  have hparse : parsePlacePayload
      (.obj [("x", .num x), ("y", .num y), ("kind", .str kind),
             ("clientBuildId", .str cid)]) =
      some { x := x, y := y, kind := kind, clientBuildId := some cid } := by
    have hmem : kind ∈ allowedKinds := by simpa using hkind
    simp [parsePlacePayload, jsGet, asNum, asStr, hmem]
  refine ⟨?_, ?_, ?_⟩ <;>
    simp [buildOnCommand, hparse, hcid, hdup]

/-- Witness for C9 at concrete inputs: the stored structure `s1` belongs to
`alice` (a beacon at `(1, 2)`), while `bob` re-places id `s1` as a miner at
`x = 6000`; the table is unchanged but the `placed` event announces bob's
miner at the clamped `x = 5000`. -/
theorem C9_build_place_id_conflict_witness :
    (buildOnCommand
        [{ id := "s1", ownerId := "alice", kind := "beacon", x := 1, y := 2,
           createdAt := 5 }] "bob" "place"
        (.obj [("x", .num 6000), ("y", .num 2), ("kind", .str "miner"),
               ("clientBuildId", .str "s1")]) "fresh" 9).1 =
      [{ id := "s1", ownerId := "alice", kind := "beacon", x := 1, y := 2,
         createdAt := 5 }]
    ∧ (buildOnCommand
        [{ id := "s1", ownerId := "alice", kind := "beacon", x := 1, y := 2,
           createdAt := 5 }] "bob" "place"
        (.obj [("x", .num 6000), ("y", .num 2), ("kind", .str "miner"),
               ("clientBuildId", .str "s1")]) "fresh" 9).2.events =
      [{ target := .room, feature := "build", action := "placed",
         payload := .obj
           [("id", .str "s1"), ("ownerId", .str "bob"), ("kind", .str "miner"),
            ("x", .num 5000), ("y", .num 2)] }] := by
  have h := C9_build_place_id_conflict
    [{ id := "s1", ownerId := "alice", kind := "beacon", x := 1, y := 2,
       createdAt := 5 }] "bob" 6000 2 "miner" "s1" "fresh" 9
    (by decide) (by decide) (by decide)
  refine ⟨h.1, h.2.2.trans ?_⟩
  rw [show buildClamp 6000 = 5000 by decide, show buildClamp 2 = 2 by decide]

/-! ## Movement feature (`worker/src/features/movement-feature.ts`)

The in-memory `runtimeByPlayer` map holds, per player id, the held input
flags and the last applied input sequence number. `onConnect` creates a
zeroed record only when the player has none; `onDisconnect` deletes the
record outright; `input_batch` commands fold sequenced inputs into the
record, dropping any input whose `seq` is not strictly above
`lastInputSeq`. The persisted `movement_state` position row is separate
SQL state not touched by these operations' dedup behaviour. -/

/-- The held input flags (`InputState`). -/
structure InputStateM where
  up : Bool
  down : Bool
  left : Bool
  right : Bool
  deriving DecidableEq

/-- A sequenced input command (`InputCommand`); its `seq` is validated as a
positive integer, so it is carried as a `ℕ` at least 1. -/
structure InputCmdM where
  seq : Nat
  up : Bool
  down : Bool
  left : Bool
  right : Bool
  deriving DecidableEq

/-- `ZERO_INPUT`. -/
def zeroInput : InputStateM :=
  { up := false, down := false, left := false, right := false }

/-- A per-player runtime record (`RuntimeState`). -/
structure RuntimeStateM where
  input : InputStateM
  lastInputSeq : Nat
  deriving DecidableEq

/-- Reads a JavaScript value as a boolean (`typeof x === 'boolean'`). -/
def asBool : Option Json → Option Bool
  | some (.bool b) => some b
  | _ => none

/-- `parseInputCommand` from the source: `seq` must be an integer at least
1 and the four flags must be booleans. -/
def parseInputCommand : Json → Option InputCmdM
  | .obj fields =>
    match asNum (jsGet fields "seq") with
    | some q =>
      if q.den = 1 ∧ 1 ≤ q then
        match asBool (jsGet fields "up"), asBool (jsGet fields "down"),
            asBool (jsGet fields "left"), asBool (jsGet fields "right") with
        | some up, some down, some left, some right =>
          some { seq := q.num.toNat, up := up, down := down, left := left,
                 right := right }
        | _, _, _, _ => none
      else none
    | none => none
  | _ => none

/-- The item loop of `parseInputBatchPayload`: any invalid item rejects the
whole batch. -/
def parseInputs : List Json → Option (List InputCmdM)
  | [] => some []
  | item :: rest =>
    match parseInputCommand item with
    | none => none
    | some cmd =>
      match parseInputs rest with
      | none => none
      | some cmds => some (cmd :: cmds)

/-- `parseInputBatchPayload`: an object with an `inputs` array of at most
128 valid input commands. -/
def parseInputBatchPayload : Json → Option (List InputCmdM)
  | .obj fields =>
    match jsGet fields "inputs" with
    | some (.arr items) =>
      if items.length ≤ 128 then parseInputs items else none
    | _ => none
  | _ => none

/-- `MovementFeature.onConnect` (runtime-map part): create the zeroed
runtime record only when the player has none
(`if (!this.runtimeByPlayer.has(playerId))`). -/
def movementOnConnect (m : String → Option RuntimeStateM) (playerId : String) :
    String → Option RuntimeStateM :=
  match m playerId with
  | some _ => m
  | none => fun q =>
      if q = playerId then some { input := zeroInput, lastInputSeq := 0 } else m q

/-- `MovementFeature.onDisconnect`: `this.runtimeByPlayer.delete(playerId)`. -/
def movementOnDisconnect (m : String → Option RuntimeStateM) (playerId : String) :
    String → Option RuntimeStateM :=
  fun q => if q = playerId then none else m q

/-- The input fold in `MovementFeature.onCommand`: an input whose `seq` is
at or below `lastInputSeq` is skipped; a fresh one overwrites the held
flags and advances `lastInputSeq`. -/
def applyInputs (rt : RuntimeStateM) (inputs : List InputCmdM) : RuntimeStateM :=
  inputs.foldl
    (fun r i =>
      if i.seq ≤ r.lastInputSeq then r
      else { input := { up := i.up, down := i.down, left := i.left, right := i.right },
             lastInputSeq := i.seq })
    rt

/-- `MovementFeature.onCommand` (runtime-map part): only `input_batch` is a
valid action; invalid payloads are rejected with a self-targeted event; an
empty batch is a no-op; otherwise the batch is folded into the player's
runtime record (created zeroed when absent) and stored back. -/
def movementOnCommand (m : String → Option RuntimeStateM) (playerId action : String)
    (payload : Json) : (String → Option RuntimeStateM) × FeatureCmdResultM :=
  if action ≠ "input_batch" then
    (m, { stateChanged := false,
          events := [{ target := .self, feature := "movement",
                       action := "invalid_action",
                       payload := .obj [("action", .str action)] }] })
  else
    match parseInputBatchPayload payload with
    | none =>
      (m, { stateChanged := false,
            events := [{ target := .self, feature := "movement",
                         action := "invalid_payload", payload := .obj [] }] })
    | some inputs =>
      if inputs.length = 0 then
        (m, { stateChanged := false, events := [] })
      else
        let runtime := (m playerId).getD { input := zeroInput, lastInputSeq := 0 }
        let runtime1 := applyInputs runtime inputs
        (fun q => if q = playerId then some runtime1 else m q,
         { stateChanged := false, events := [] })

/-- A well-formed `input_batch` payload holding exactly one input command;
used to feed the movement handler concrete wire payloads. -/
def inputBatchJson (i : InputCmdM) : Json :=
  .obj [("inputs", .arr
    [.obj [("seq", .num (i.seq : ℚ)), ("up", .bool i.up), ("down", .bool i.down),
           ("left", .bool i.left), ("right", .bool i.right)]])]

theorem parse_inputBatchJson (i : InputCmdM) (h1 : 1 ≤ i.seq) :
    parseInputBatchPayload (inputBatchJson i) = some [i] := by
  obtain ⟨sq, u, d, l, r⟩ := i
  simp only at h1
  have hden : ((sq : ℚ)).den = 1 := Rat.den_natCast sq
  have hge : (1 : ℚ) ≤ (sq : ℚ) := by exact_mod_cast h1
  have htn : ((sq : ℚ)).num.toNat = sq := by
    rw [Rat.num_natCast]
    exact Int.toNat_natCast sq
  simp [parseInputBatchPayload, inputBatchJson, jsGet, parseInputs,
    parseInputCommand, asNum, asBool, hden, hge, htn]

/-- C10: the movement module's disconnect hook deletes the player's entire
runtime record including `lastInputSeq`; a duplicate input (seq at or below
the recorded `lastInputSeq`) is dropped, but after disconnecting and
reconnecting the record restarts at `lastInputSeq = 0`, so the same input
sequence number is applied again rather than dropped. -/
theorem C10_movement_runtime_reset (m : String → Option RuntimeStateM)
    (playerId : String) (rt : RuntimeStateM) (i : InputCmdM)
    (hm : m playerId = some rt)
    (h1 : 1 ≤ i.seq) (hstale : i.seq ≤ rt.lastInputSeq) :
    ((movementOnCommand m playerId "input_batch" (inputBatchJson i)).1 playerId =
      some rt)
    ∧ (movementOnDisconnect m playerId playerId = none)
    ∧ (movementOnConnect (movementOnDisconnect m playerId) playerId playerId =
        some { input := zeroInput, lastInputSeq := 0 })
    ∧ ((movementOnCommand (movementOnConnect (movementOnDisconnect m playerId) playerId)
          playerId "input_batch" (inputBatchJson i)).1 playerId =
        some { input := { up := i.up, down := i.down, left := i.left, right := i.right },
               lastInputSeq := i.seq }) := by
  have hparse := parse_inputBatchJson i h1
  have hdel : movementOnDisconnect m playerId playerId = none := by
    simp [movementOnDisconnect]
  have hconn : movementOnConnect (movementOnDisconnect m playerId) playerId playerId =
      some { input := zeroInput, lastInputSeq := 0 } := by
    simp [movementOnConnect, hdel]
  refine ⟨?_, hdel, hconn, ?_⟩
  · simp [movementOnCommand, hparse, hm, applyInputs, hstale]
  · have hfresh : ¬ i.seq ≤ 0 := by omega
    simp [movementOnCommand, hparse, hconn, applyInputs, hfresh, zeroInput]

/-- Witness for C10 at concrete inputs: player `p1` holds
`lastInputSeq = 5`; an input with seq 3 is dropped as a duplicate, but
after disconnect and reconnect the same seq-3 input is applied. -/
theorem C10_movement_runtime_reset_witness :
    ((movementOnCommand
        (fun q => if q = "p1" then some { input := zeroInput, lastInputSeq := 5 }
          else none)
        "p1" "input_batch"
        (inputBatchJson { seq := 3, up := true, down := false, left := false,
                          right := false })).1 "p1" =
      some { input := zeroInput, lastInputSeq := 5 })
    ∧ ((movementOnCommand
        (movementOnConnect
          (movementOnDisconnect
            (fun q => if q = "p1" then some { input := zeroInput, lastInputSeq := 5 }
              else none) "p1") "p1")
        "p1" "input_batch"
        (inputBatchJson { seq := 3, up := true, down := false, left := false,
                          right := false })).1 "p1" =
      some { input := { up := true, down := false, left := false, right := false },
             lastInputSeq := 3 }) := by
  have h := C10_movement_runtime_reset
    (fun q => if q = "p1" then some { input := zeroInput, lastInputSeq := 5 }
      else none)
    "p1" { input := zeroInput, lastInputSeq := 5 }
    { seq := 3, up := true, down := false, left := false, right := false }
    (by simp) (by decide) (by decide)
  exact ⟨h.1, h.2.2.2⟩

/-! ## Client replication pipeline (`src/game/netcode/replication.ts`)

`ReplicationPipeline` buffers `RoomSnapshot`s (a time-ordered list bounded
at `MAX_BUFFERED_SNAPSHOTS = 90`), maintains the exponentially smoothed
clock offset, and builds render snapshots by interpolating between the two
snapshots bracketing `now + clockOffsetMs - interpolationDelayMs`.
`Date.now()` is passed in as the `now` argument. The optional feature
sections of `RoomSnapshot.features` are the `Option` fields. JavaScript's
`Array.prototype.sort` is stable, which `List.mergeSort` models. -/

/-- `PlayerState` on the client. -/
structure PlayerStateC where
  id : String
  x : ℚ
  y : ℚ
  vx : ℚ
  vy : ℚ
  connected : Bool
  deriving DecidableEq

/-- `ProjectileState` on the client. -/
structure ProjectileStateC where
  id : String
  ownerId : String
  x : ℚ
  y : ℚ
  vx : ℚ
  vy : ℚ
  clientProjectileId : Option String
  deriving DecidableEq

/-- `BuildStructure` on the client. -/
structure BuildStructureC where
  id : String
  x : ℚ
  y : ℚ
  kind : String
  ownerId : String
  deriving DecidableEq

/-- `MovementSnapshot`; `inputAcks` is a string-keyed record. -/
structure MovementSnapC where
  players : List PlayerStateC
  inputAcks : List (String × ℚ)
  speed : ℚ
  deriving DecidableEq

/-- `BuildSnapshot`. -/
structure BuildSnapC where
  structures : List BuildStructureC
  structureCount : Nat
  deriving DecidableEq

/-- `ProjectileSnapshot`. -/
structure ProjectileSnapC where
  projectiles : List ProjectileStateC
  projectileCount : Nat
  deriving DecidableEq

/-- `PresenceSnapshot`. -/
structure PresenceSnapC where
  online : List String
  onlineCount : Nat
  deriving DecidableEq

/-- `RoomSnapshot` with its optional per-feature sections. -/
structure RoomSnapshotC where
  roomCode : String
  serverTick : Nat
  simRateHz : ℚ
  snapshotRateHz : ℚ
  serverTime : ℚ
  presence : Option PresenceSnapC
  movement : Option MovementSnapC
  build : Option BuildSnapC
  projectile : Option ProjectileSnapC
  deriving DecidableEq

/-- `DEFAULT_INTERPOLATION_DELAY_MS = 110`. -/
def defaultInterpolationDelayMs : ℚ := 110

/-- `MAX_BUFFERED_SNAPSHOTS = 90`. -/
def maxBufferedSnapshots : Nat := 90

/-- The state of a `ReplicationPipeline` instance. -/
structure PipelineState where
  interpolationDelayMs : ℚ
  snapshots : List RoomSnapshotC
  clockOffsetMs : ℚ
  hasClockSync : Bool
  deriving DecidableEq

/-- A freshly constructed pipeline. -/
def initPipeline (delay : ℚ) : PipelineState :=
  { interpolationDelayMs := delay, snapshots := [], clockOffsetMs := 0,
    hasClockSync := false }

/-- The buffer sort comparator `(a, b) => a.serverTick - b.serverTick`. -/
def snapTickLe (a b : RoomSnapshotC) : Bool := decide (a.serverTick ≤ b.serverTick)

/-- `ingestSnapshot(snapshot)` at local wall time `now`: blend the clock
offset sample (first sample taken directly, later ones 90 % old / 10 %
new), push the snapshot, stable-sort by `serverTick`, and splice the
oldest entries beyond the buffer bound off the front. -/
def ingestSnapshot (st : PipelineState) (s : RoomSnapshotC) (now : ℚ) : PipelineState :=
  let offsetSample := s.serverTime - now
  let offset := if st.hasClockSync
    then st.clockOffsetMs * (9 / 10) + offsetSample * (1 / 10)
    else offsetSample
  let buf := (st.snapshots ++ [s]).mergeSort snapTickLe
  let buf2 := buf.drop (buf.length - maxBufferedSnapshots)
  { st with clockOffsetMs := offset, hasClockSync := true, snapshots := buf2 }

/-- `lerp(a, b, t) = a + (b - a) * t`. -/
def lerp (a b t : ℚ) : ℚ := a + (b - a) * t

/-- `Map.get` on a `new Map(xs.map(x => [key x, x]))`: built in list order,
a later entry for the same key overwrites an earlier one. -/
def jsMapGet {α : Type} (key : α → String) (xs : List α) (k : String) : Option α :=
  xs.foldl (fun acc p => if key p = k then some p else acc) none

/-- Iteration order of a JS `Set` built by inserting list elements in
order: the first occurrences, in order. -/
def dedupFirst : List String → List String
  | [] => []
  | i :: rest => i :: dedupFirst (rest.filter (fun j => j ≠ i))
termination_by l => l.length
decreasing_by
  simp only [List.length_cons]
  exact Nat.lt_succ_of_le (List.length_filter_le _ _)

/-- `interpolatePlayers` from the source: iterate the union of ids from the
two bracketing snapshots; the local player is taken verbatim from the
latest snapshot (falling back to newer then older); entities present in
only one bracketing snapshot pass through unchanged; entities in both are
linearly interpolated, with `connected` taken from the newer one. -/
def interpolatePlayers (older newer : List PlayerStateC) (alpha : ℚ)
    (localPlayerId : String) (latestPlayers : List PlayerStateC) :
    List PlayerStateC :=
  let allIds := dedupFirst (older.map (fun p => p.id) ++ newer.map (fun p => p.id))
  allIds.filterMap (fun pid =>
    if pid = localPlayerId then
      match jsMapGet (fun p => p.id) latestPlayers pid with
      | some lp => some lp
      | none =>
        match jsMapGet (fun p => p.id) newer pid with
        | some lp => some lp
        | none => jsMapGet (fun p => p.id) older pid
    else
      let fromP := jsMapGet (fun p => p.id) older pid
      let toP := match jsMapGet (fun p => p.id) newer pid with
        | some t => some t
        | none => fromP
      match fromP, toP with
      | none, none => none
      | some f, none => some f
      | none, some t => some t
      | some f, some t =>
        some { id := pid, x := lerp f.x t.x alpha, y := lerp f.y t.y alpha,
               vx := lerp f.vx t.vx alpha, vy := lerp f.vy t.vy alpha,
               connected := t.connected })

/-- `interpolateProjectiles` from the source, same matching scheme as the
players without a local special case. -/
def interpolateProjectiles (older newer : List ProjectileStateC) (alpha : ℚ) :
    List ProjectileStateC :=
  let allIds := dedupFirst (older.map (fun p => p.id) ++ newer.map (fun p => p.id))
  allIds.filterMap (fun pid =>
    let fromP := jsMapGet (fun p => p.id) older pid
    let toP := match jsMapGet (fun p => p.id) newer pid with
      | some t => some t
      | none => fromP
    match fromP, toP with
    | none, none => none
    | some f, none => some f
    | none, some t => some t
    | some f, some t =>
      some { id := pid, ownerId := t.ownerId,
             clientProjectileId := t.clientProjectileId,
             x := lerp f.x t.x alpha, y := lerp f.y t.y alpha,
             vx := lerp f.vx t.vx alpha, vy := lerp f.vy t.vy alpha })

/-- The bracketing scan in `buildRenderSnapshot`: walk the buffer in order,
remembering the last snapshot at or before the target time as `older`, and
breaking with the first snapshot at or after it as `newer`; both start at
the latest snapshot. -/
def scanBracket (target : ℚ) :
    List RoomSnapshotC → RoomSnapshotC → RoomSnapshotC →
    RoomSnapshotC × RoomSnapshotC
  | [], older, newer => (older, newer)
  | c :: rest, older, newer =>
    let older1 := if c.serverTime ≤ target then c else older
    if target ≤ c.serverTime then (older1, c)
    else scanBracket target rest older1 newer

/-- The interpolation fraction:
`span = Math.max(1, newerTime - olderTime)`;
`alphaRaw = (renderTargetTime - olderTime) / span`;
`alpha = Math.max(0, Math.min(1, alphaRaw))`. -/
def renderAlpha (olderTime newerTime target : ℚ) : ℚ :=
  let span := max 1 (newerTime - olderTime)
  let alphaRaw := (target - olderTime) / span
  max 0 (min 1 alphaRaw)

/-- `RenderSnapshotPayload` as populated by `buildRenderSnapshot`. -/
structure RenderSnapshotC where
  serverTick : Nat
  simRateHz : ℚ
  localAckSeq : ℚ
  players : List PlayerStateC
  structures : List BuildStructureC
  projectiles : List ProjectileStateC
  deriving DecidableEq

/-- `buildRenderSnapshot(localPlayerId)` at local wall time `now`: null when
the buffer is empty or the latest snapshot has no movement section;
otherwise interpolate players and projectiles between the bracketing
snapshots (sections missing from a bracketing snapshot fall back to the
latest movement section, or to an empty projectile list) and copy the
structures of the latest snapshot (or an empty list). -/
def buildRenderSnapshot (st : PipelineState) (localPlayerId : String) (now : ℚ) :
    Option RenderSnapshotC :=
  match st.snapshots.getLast? with
  | none => none
  | some latest =>
    match latest.movement with
    | none => none
    | some latestMovement =>
      let renderTargetTime := now + st.clockOffsetMs - st.interpolationDelayMs
      let bracket := scanBracket renderTargetTime st.snapshots latest latest
      let older := bracket.1
      let newer := bracket.2
      let olderMovement := older.movement.getD latestMovement
      let newerMovement := newer.movement.getD latestMovement
      let olderProjectiles := (older.projectile.map (fun p => p.projectiles)).getD []
      let newerProjectiles := (newer.projectile.map (fun p => p.projectiles)).getD []
      let alpha := renderAlpha older.serverTime newer.serverTime renderTargetTime
      let players := interpolatePlayers olderMovement.players newerMovement.players
        alpha localPlayerId latestMovement.players
      let projectiles := interpolateProjectiles olderProjectiles newerProjectiles alpha
      let structures := (latest.build.map (fun b => b.structures)).getD []
      some { serverTick := latest.serverTick, simRateHz := latest.simRateHz,
             localAckSeq := ((jsMapGet (fun kv => kv.1) latestMovement.inputAcks
               localPlayerId).map (fun kv => kv.2)).getD 0,
             players := players, structures := structures,
             projectiles := projectiles }

theorem jsMapGet_init {α : Type} (key : α → String) (xs : List α) (k : String)
    (init : Option α) :
    xs.foldl (fun acc p => if key p = k then some p else acc) init =
      match xs.foldl (fun acc p => if key p = k then some p else acc) none with
      | some q => some q
      | none => init := by
  induction xs generalizing init with
  | nil => simp
  | cons p rest ih =>
    simp only [List.foldl_cons]
    rw [ih, ih (if key p = k then some p else none)]
    by_cases hpk : key p = k
    · simp only [if_pos hpk]
      cases rest.foldl (fun acc p => if key p = k then some p else acc) none <;> simp
    · simp only [if_neg hpk]
      cases rest.foldl (fun acc p => if key p = k then some p else acc) none <;> simp

theorem jsMapGet_cons {α : Type} (key : α → String) (p : α) (rest : List α)
    (k : String) :
    jsMapGet key (p :: rest) k =
      match jsMapGet key rest k with
      | some q => some q
      | none => if key p = k then some p else none := by
  unfold jsMapGet
  simp only [List.foldl_cons]
  exact jsMapGet_init key rest k _

theorem jsMapGet_eq_none {α : Type} (key : α → String) (xs : List α) (k : String)
    (h : ∀ x ∈ xs, ¬ key x = k) : jsMapGet key xs k = none := by
  induction xs with
  | nil => rfl
  | cons p rest ih =>
    rw [jsMapGet_cons, ih (fun x hx => h x (List.mem_cons_of_mem _ hx))]
    simp [h p (List.mem_cons_self p rest)]

theorem jsMapGet_of_mem {α : Type} (key : α → String) (xs : List α) (p : α)
    (hN : (xs.map key).Nodup) (hp : p ∈ xs) :
    jsMapGet key xs (key p) = some p := by
  induction xs with
  | nil => cases hp
  | cons q rest ih =>
    rw [List.map_cons, List.nodup_cons] at hN
    obtain ⟨hqn, hrN⟩ := hN
    rw [jsMapGet_cons]
    rcases List.mem_cons.mp hp with rfl | hp'
    · have hnone : jsMapGet key rest (key p) = none := by
        apply jsMapGet_eq_none
        intro x hx he
        exact hqn (he ▸ List.mem_map.mpr ⟨x, hx, rfl⟩)
      rw [hnone]
      simp
    · rw [ih hrN hp']

theorem dedupFirst_append_self (l : List String) (h : l.Nodup) :
    dedupFirst (l ++ l) = l := by
  induction l with
  | nil => simp [dedupFirst]
  | cons i r ih =>
    obtain ⟨hni, hr⟩ := List.nodup_cons.mp h
    have hmem : ∀ a ∈ r, ¬ a = i := fun a ha he => hni (he ▸ ha)
    have hfr : r.filter (fun j => j ≠ i) = r :=
      List.filter_eq_self.mpr (fun a ha => by simpa using hmem a ha)
    have hfilter : (r ++ i :: r).filter (fun j => j ≠ i) = r ++ r := by
      rw [List.filter_append, hfr, List.filter_cons]
      simp [hfr]
      exact hmem
    rw [List.cons_append]
    simp only [dedupFirst]
    rw [hfilter, ih hr]

theorem lerp_self (a t : ℚ) : lerp a a t = a := by
  unfold lerp
  ring

theorem filterMap_eq_self_of {α : Type} (l : List α) (f : α → Option α)
    (h : ∀ a ∈ l, f a = some a) : l.filterMap f = l := by
  induction l with
  | nil => rfl
  | cons a r ih =>
    rw [List.filterMap_cons, h a (List.mem_cons_self a r),
      ih (fun b hb => h b (List.mem_cons_of_mem _ hb))]

theorem interpolatePlayers_self (ps : List PlayerStateC) (alpha : ℚ) (pid : String)
    (hN : (ps.map (fun p => p.id)).Nodup) :
    interpolatePlayers ps ps alpha pid ps = ps := by
  unfold interpolatePlayers
  rw [dedupFirst_append_self _ hN, List.filterMap_map]
  apply filterMap_eq_self_of
  intro p hp
  simp only [Function.comp_apply]
  have hget : jsMapGet (fun q => q.id) ps p.id = some p :=
    jsMapGet_of_mem _ ps p hN hp
  obtain ⟨pid0, px, py, pvx, pvy, pc⟩ := p
  simp only at hget
  by_cases hl : pid0 = pid
  · rw [if_pos hl, hget]
  · rw [if_neg hl]
    simp only [hget, lerp_self]

theorem interpolateProjectiles_self (ps : List ProjectileStateC) (alpha : ℚ)
    (hN : (ps.map (fun p => p.id)).Nodup) :
    interpolateProjectiles ps ps alpha = ps := by
  unfold interpolateProjectiles
  rw [dedupFirst_append_self _ hN, List.filterMap_map]
  apply filterMap_eq_self_of
  intro p hp
  simp only [Function.comp_apply]
  have hget : jsMapGet (fun q => q.id) ps p.id = some p :=
    jsMapGet_of_mem _ ps p hN hp
  obtain ⟨pid0, po, px, py, pvx, pvy, pcid⟩ := p
  simp only at hget
  simp only [hget, lerp_self]

theorem scanBracket_single (target : ℚ) (s : RoomSnapshotC) :
    scanBracket target [s] s s = (s, s) := by
  simp [scanBracket]

/-- C6: the interpolation fraction computed by `buildRenderSnapshot` is
always clamped into `[0, 1]`; and on a buffer holding a single snapshot
(so the older and newer bracketing snapshots coincide), the returned
players and projectiles equal that snapshot's values unchanged. -/
theorem C6_render_clamp_and_single_snapshot :
    (∀ olderTime newerTime target : ℚ,
      0 ≤ renderAlpha olderTime newerTime target ∧
      renderAlpha olderTime newerTime target ≤ 1)
    ∧ (∀ (delay offset : ℚ) (sync : Bool) (s : RoomSnapshotC) (mv : MovementSnapC)
        (pid : String) (now : ℚ),
        s.movement = some mv →
        (mv.players.map (fun p => p.id)).Nodup →
        ((((s.projectile.map (fun p => p.projectiles)).getD []).map
          (fun p => p.id)).Nodup) →
        buildRenderSnapshot
          { interpolationDelayMs := delay, snapshots := [s],
            clockOffsetMs := offset, hasClockSync := sync } pid now =
          some { serverTick := s.serverTick, simRateHz := s.simRateHz,
                 localAckSeq := ((jsMapGet (fun kv => kv.1) mv.inputAcks pid).map
                   (fun kv => kv.2)).getD 0,
                 players := mv.players,
                 structures := (s.build.map (fun b => b.structures)).getD [],
                 projectiles := (s.projectile.map (fun p => p.projectiles)).getD [] }) := by
  constructor
  · intro olderTime newerTime target
    unfold renderAlpha
    exact ⟨le_max_left _ _, max_le (by norm_num) (min_le_left _ _)⟩
  · intro delay offset sync s mv pid now hmv hNp hNq
    simp only [buildRenderSnapshot, List.getLast?_singleton, scanBracket_single, hmv,
      Option.getD_some, Option.some.injEq]
    rw [interpolatePlayers_self _ _ _ hNp, interpolateProjectiles_self _ _ hNq]

/-- The single player of the C6 witness snapshot. -/
def c6pl : PlayerStateC :=
  { id := "p1", x := 1, y := 2, vx := 0, vy := 0, connected := true }

/-- The movement section of the C6 witness snapshot. -/
def c6mv : MovementSnapC :=
  { players := [c6pl], inputAcks := [("p1", 4)], speed := 220 }

/-- The C6 witness snapshot: one player, an input ack, no build or
projectile section. -/
def c6snap : RoomSnapshotC :=
  { roomCode := "R", serverTick := 1, simRateHz := 60, snapshotRateHz := 20,
    serverTime := 100, presence := none, movement := some c6mv, build := none,
    projectile := none }

/-- Witness for C6 at a concrete one-snapshot buffer: the render output
carries the snapshot's only player and its input ack unchanged. -/
theorem C6_render_clamp_and_single_snapshot_witness :
    buildRenderSnapshot
      { interpolationDelayMs := 110, snapshots := [c6snap],
        clockOffsetMs := 0, hasClockSync := true } "p1" 300 =
      some { serverTick := 1, simRateHz := 60, localAckSeq := 4,
             players := [c6pl], structures := [], projectiles := [] } := by
  have h := C6_render_clamp_and_single_snapshot.2 110 0 true c6snap c6mv "p1" 300
    rfl (by decide) (by decide)
  exact h.trans (by rfl)

theorem interpolatePlayers_nil (alpha : ℚ) (pid : String)
    (latest : List PlayerStateC) :
    interpolatePlayers [] [] alpha pid latest = [] := by
  simp [interpolatePlayers, dedupFirst]

theorem interpolateProjectiles_nil (alpha : ℚ) :
    interpolateProjectiles [] [] alpha = [] := by
  simp [interpolateProjectiles, dedupFirst]

/-- An empty movement section shared by the C4 snapshots. -/
def c4mv : MovementSnapC := { players := [], inputAcks := [], speed := 220 }

/-- The structure carried by the first C4 snapshot. -/
def c4b0 : BuildStructureC :=
  { id := "s1", x := 1, y := 2, kind := "beacon", ownerId := "p1" }

/-- The first C4 snapshot: tick 1, with a build section holding `c4b0`. -/
def c4s1 : RoomSnapshotC :=
  { roomCode := "R", serverTick := 1, simRateHz := 60, snapshotRateHz := 20,
    serverTime := 100, presence := none, movement := some c4mv,
    build := some { structures := [c4b0], structureCount := 1 },
    projectile := none }

/-- The second C4 snapshot: tick 2, with its build section omitted. -/
def c4s2 : RoomSnapshotC :=
  { roomCode := "R", serverTick := 2, simRateHz := 60, snapshotRateHz := 20,
    serverTime := 200, presence := none, movement := some c4mv, build := none,
    projectile := none }

theorem c4_ingest_one :
    ingestSnapshot (initPipeline 110) c4s1 100 =
      { interpolationDelayMs := 110, snapshots := [c4s1], clockOffsetMs := 0,
        hasClockSync := true } := by
  have hms : ([c4s1] : List RoomSnapshotC).mergeSort snapTickLe = [c4s1] :=
    List.mergeSort_of_sorted (by simp)
  simp only [ingestSnapshot, initPipeline, List.nil_append, hms]
  norm_num [c4s1, maxBufferedSnapshots]

theorem c4_ingest_two :
    ingestSnapshot
      { interpolationDelayMs := 110, snapshots := [c4s1], clockOffsetMs := 0,
        hasClockSync := true } c4s2 200 =
      { interpolationDelayMs := 110, snapshots := [c4s1, c4s2],
        clockOffsetMs := 0, hasClockSync := true } := by
  have hms : ([c4s1, c4s2] : List RoomSnapshotC).mergeSort snapTickLe =
      [c4s1, c4s2] := by
    apply List.mergeSort_of_sorted
    simp [List.pairwise_cons, snapTickLe, c4s1, c4s2]
  simp only [ingestSnapshot, List.singleton_append, hms]
  norm_num [c4s2, maxBufferedSnapshots]

/-- C4 counterexample: after ingesting a snapshot whose build section holds
one structure, the render output shows that structure; ingesting a later
snapshot that omits the build section makes the next render output an empty
structure list — the omitted feature section is treated as cleared, not as
unchanged. -/
theorem C4_delta_merge_counterexample :
    ((buildRenderSnapshot (ingestSnapshot (initPipeline 110) c4s1 100) "me" 150).map
      (fun r => r.structures)) = some [c4b0]
    ∧ ((buildRenderSnapshot
        (ingestSnapshot (ingestSnapshot (initPipeline 110) c4s1 100) c4s2 200)
        "me" 300).map
      (fun r => r.structures)) = some [] := by
  rw [c4_ingest_one, c4_ingest_two]
  constructor
  · norm_num [buildRenderSnapshot, scanBracket, c4s1, c4mv, renderAlpha,
      interpolatePlayers_nil, interpolateProjectiles_nil, jsMapGet]
  · norm_num [buildRenderSnapshot, scanBracket, c4s1, c4s2, c4mv, renderAlpha,
      interpolatePlayers_nil, interpolateProjectiles_nil, jsMapGet]

/-- C4 (amended): the pipeline does not merge delta snapshots. Ingestion
stores each snapshot in the buffer as-is (for a non-full buffer, the new
buffer is a permutation of the old one plus the new snapshot, unmodified);
`buildRenderSnapshot` reads the structure list solely from the latest
buffered snapshot, so a latest snapshot omitting its build section renders
an empty structure list regardless of earlier snapshots; and when both
bracketing snapshots omit their projectile sections, the rendered
projectile list is empty. -/
theorem C4_no_delta_merge (st : PipelineState) (s : RoomSnapshotC) (now : ℚ)
    (pid : String) (r : RenderSnapshotC) :
    (st.snapshots.length < maxBufferedSnapshots →
      ((ingestSnapshot st s now).snapshots).Perm (s :: st.snapshots))
    ∧ (buildRenderSnapshot st pid now = some r →
        ∃ latest, st.snapshots.getLast? = some latest ∧
          r.structures = (latest.build.map (fun b => b.structures)).getD [] ∧
          ((scanBracket (now + st.clockOffsetMs - st.interpolationDelayMs)
              st.snapshots latest latest).1.projectile = none →
           (scanBracket (now + st.clockOffsetMs - st.interpolationDelayMs)
              st.snapshots latest latest).2.projectile = none →
           r.projectiles = [])) := by
  constructor
  · intro hlen
    simp only [ingestSnapshot]
    have hperm := List.mergeSort_perm (st.snapshots ++ [s]) snapTickLe
    have hlen2 : ((st.snapshots ++ [s]).mergeSort snapTickLe).length -
        maxBufferedSnapshots = 0 := by
      rw [hperm.length_eq, List.length_append, List.length_singleton]
      omega
    rw [hlen2, List.drop_zero]
    exact hperm.trans (List.perm_append_singleton _ _)
  · intro hb
    simp only [buildRenderSnapshot] at hb
    rcases hlast : st.snapshots.getLast? with _ | latest
    · simp only [hlast] at hb
      exact absurd hb (by simp)
    · simp only [hlast] at hb
      rcases hmv : latest.movement with _ | lm
      · simp only [hmv] at hb
        exact absurd hb (by simp)
      · simp only [hmv] at hb
        obtain rfl := Option.some_injective _ hb
        refine ⟨latest, rfl, rfl, ?_⟩
        intro hop hnp
        simp [hop, hnp, interpolateProjectiles_nil]

/-- Witness for C4 (amended) at concrete inputs: ingesting the
build-omitting snapshot into a one-snapshot buffer yields exactly the two
snapshots unmerged, and the render built from the one-snapshot buffer reads
its structure list from that latest snapshot. -/
theorem C4_no_delta_merge_witness :
    ((ingestSnapshot
        { interpolationDelayMs := 110, snapshots := [c4s1], clockOffsetMs := 0,
          hasClockSync := true } c4s2 150).snapshots).Perm (c4s2 :: [c4s1])
    ∧ ({ serverTick := 1, simRateHz := 60, localAckSeq := 0, players := [],
         structures := [c4b0], projectiles := [] } : RenderSnapshotC).structures =
      (c4s1.build.map (fun b => b.structures)).getD [] := by
  have hb : buildRenderSnapshot
      { interpolationDelayMs := 110, snapshots := [c4s1], clockOffsetMs := 0,
        hasClockSync := true } "me" 150 =
      some { serverTick := 1, simRateHz := 60, localAckSeq := 0, players := [],
             structures := [c4b0], projectiles := [] } := by
    norm_num [buildRenderSnapshot, scanBracket, c4s1, c4mv, renderAlpha,
      interpolatePlayers_nil, interpolateProjectiles_nil, jsMapGet]
  have h := C4_no_delta_merge
    { interpolationDelayMs := 110, snapshots := [c4s1], clockOffsetMs := 0,
      hasClockSync := true } c4s2 150 "me"
    { serverTick := 1, simRateHz := 60, localAckSeq := 0, players := [],
      structures := [c4b0], projectiles := [] }
  refine ⟨h.1 (by decide), ?_⟩
  obtain ⟨latest, hl, hs, _⟩ := h.2 hb
  have hlc : latest = c4s1 := by
    rw [List.getLast?_singleton] at hl
    exact (Option.some_injective _ hl).symm
  rw [hlc] at hs
  exact hs

end Ralphorio
